import Mathlib

/-!
Verification of the CISystem frontend's reporting, date, permission and
inventory-classification logic.

The development shallowly embeds the TypeScript source:

* calendar arithmetic performed by the host `Date` object (`new Date(y, m, 0)`,
  `setUTCDate`, `setMonth`) is embedded as explicit proleptic-Gregorian
  normalization on year/month/day triples (`normDay`, `addDaysYmd`, `addMonths`);
* strings are manipulated through their character lists, since the claims
  compare concrete ISO-formatted date strings;
* monetary amounts (IEEE doubles in the source) are embedded as integers: every
  claim under study is about the structure of the arithmetic (which sums and
  differences are formed), not about rounding;
* the GraphQL fetch layer is embedded as an explicit function from an ISO date
  string to the (possibly null) report for that date; `forkJoin` preserves
  request order, so a result array indexed by position corresponds to applying
  that function to the request's date.
-/

/-- A calendar date: year, month (1..12 when normalized), day (1-based). -/
structure Ymd where
  year : Int
  month : Nat
  day : Nat
deriving DecidableEq, Repr

/-- Leap-year test of the proleptic Gregorian calendar, as implemented by the
host `Date` object used in `daysInMonth`. -/
def isLeap (y : Int) : Bool :=
  y % 4 == 0 && (y % 100 != 0 || y % 400 == 0)

/-- `ProfitManagementPage.daysInMonth`: `new Date(year, month1to12, 0).getDate()`,
i.e. the number of days of month `m` (1..12) of year `y`. -/
def daysInMonth (y : Int) (m : Nat) : Nat :=
  if m = 2 then (if isLeap y then 29 else 28)
  else if m = 4 ∨ m = 6 ∨ m = 9 ∨ m = 11 then 30
  else 31

theorem daysInMonth_ge (y : Int) (m : Nat) : 28 ≤ daysInMonth y m := by
  unfold daysInMonth
  split_ifs <;> norm_num

theorem daysInMonth_le (y : Int) (m : Nat) : daysInMonth y m ≤ 31 := by
  unfold daysInMonth
  split_ifs <;> norm_num

/-- Day-of-month normalization performed by the host `Date` object when the
day field leaves the 1..(length of month) range: borrow from the previous
month while `d < 1`, carry into the next month while `d` exceeds the month
length.  This is the semantics of `setUTCDate`/`setMonth` overflow.  The
recursion is driven by an explicit fuel so the function reduces inside the
kernel; `normDay` supplies fuel that strictly dominates the number of
borrow/carry iterations (`normDayGo_spec`), so the fuel-exhausted branch is
never reached. -/
def normDayGo : Nat → Int → Nat → Int → Ymd
  | 0, y, m, d => ⟨y, m, d.toNat⟩
  | fuel + 1, y, m, d =>
    if d < 1 then
      normDayGo fuel (if m = 1 then y - 1 else y) (if m = 1 then 12 else m - 1)
        (d + (daysInMonth (if m = 1 then y - 1 else y) (if m = 1 then 12 else m - 1) : Int))
    else if (daysInMonth y m : Int) < d then
      normDayGo fuel (if m = 12 then y + 1 else y) (if m = 12 then 1 else m + 1)
        (d - (daysInMonth y m : Int))
    else ⟨y, m, d.toNat⟩

/-- Single-step unfolding of `normDayGo` (used where the fuel is a literal,
where simp-unfolding would keep expanding the recursion). -/
theorem normDayGo_succ (fuel : Nat) (y : Int) (m : Nat) (d : Int) :
    normDayGo (fuel + 1) y m d =
      if d < 1 then
        normDayGo fuel (if m = 1 then y - 1 else y) (if m = 1 then 12 else m - 1)
          (d + (daysInMonth (if m = 1 then y - 1 else y) (if m = 1 then 12 else m - 1) : Int))
      else if (daysInMonth y m : Int) < d then
        normDayGo fuel (if m = 12 then y + 1 else y) (if m = 12 then 1 else m + 1)
          (d - (daysInMonth y m : Int))
      else ⟨y, m, d.toNat⟩ := rfl

/-- Fuel bound for `normDayGo`: strictly decreases at every borrow/carry. -/
def normMeasure (d : Int) : Nat :=
  (if d < 1 then 32 * (2 - d) else d).toNat

def normDay (y : Int) (m : Nat) (d : Int) : Ymd :=
  normDayGo (normMeasure d) y m d

/-- On an in-range day the normalization is the identity, for any fuel. -/
theorem normDayGo_in_range (fuel : Nat) (y : Int) (m : Nat) (d : Int)
    (h1 : 1 ≤ d) (h2 : d ≤ (daysInMonth y m : Int)) :
    normDayGo fuel y m d = ⟨y, m, d.toNat⟩ := by
  cases fuel with
  | zero => rfl
  | succ fuel =>
    simp only [normDayGo]
    rw [if_neg (by omega), if_neg (by omega)]

/-- On an in-range day the normalization is the identity. -/
theorem normDay_in_range (y : Int) (m : Nat) (d : Int)
    (h1 : 1 ≤ d) (h2 : d ≤ (daysInMonth y m : Int)) :
    normDay y m d = ⟨y, m, d.toNat⟩ :=
  normDayGo_in_range _ y m d h1 h2

/-- `setUTCDate(getUTCDate() + days)`: day addition through host normalization. -/
def addDaysYmd (t : Ymd) (delta : Int) : Ymd :=
  normDay t.year t.month ((t.day : Int) + delta)

/-- `InventoryPage.addMonths`: `copy.setMonth(copy.getMonth() + months)` —
month-index arithmetic with year overflow, then day normalization on read. -/
def addMonths (t : Ymd) (months : Int) : Ymd :=
  normDay (t.year + ((t.month : Int) - 1 + months) / 12)
    ((((t.month : Int) - 1 + months) % 12).toNat + 1) (t.day : Int)

/-- Days contributed by whole years before year `y` (proleptic Gregorian,
relative to an arbitrary fixed origin). -/
def daysBeforeYear (y : Int) : Int :=
  365 * y + (y + 3) / 4 - (y + 99) / 100 + (y + 399) / 400

/-- Days of year `y` that lie before month `m` (1-based). -/
def daysBeforeMonth (y : Int) : Nat → Int
  | 0 => 0
  | 1 => 0
  | (m + 2) => daysBeforeMonth y (m + 1) + daysInMonth y (m + 1)

theorem daysBeforeMonth_succ (y : Int) (m : Nat) (h : 1 ≤ m) :
    daysBeforeMonth y (m + 1) = daysBeforeMonth y m + daysInMonth y m := by
  match m, h with
  | (k + 1), _ => rfl

theorem daysBeforeYear_succ (y : Int) :
    daysBeforeYear (y + 1) = daysBeforeYear y + 365 + (if isLeap y then 1 else 0) := by
  have h : isLeap y = true ↔ (y % 4 = 0 ∧ (y % 100 ≠ 0 ∨ y % 400 = 0)) := by
    simp [isLeap]
  unfold daysBeforeYear
  split_ifs with hl
  · rw [h] at hl
    omega
  · rw [h] at hl
    push_neg at hl
    omega

theorem daysBeforeMonth_13 (y : Int) :
    daysBeforeMonth y 13 = 365 + (if isLeap y then 1 else 0) := by
  cases hL : isLeap y <;> simp [daysBeforeMonth, daysInMonth, hL]

/-- Linear day count of an (extended) calendar triple: the day field may be
any integer. -/
def toDaysExt (y : Int) (m : Nat) (d : Int) : Int :=
  daysBeforeYear y + daysBeforeMonth y m + d

/-- Linear day count of a calendar date. -/
def toDays (t : Ymd) : Int :=
  toDaysExt t.year t.month t.day

/-- A date with month in 1..12 and day within the month. -/
def ValidYmd (t : Ymd) : Prop :=
  1 ≤ t.month ∧ t.month ≤ 12 ∧ 1 ≤ t.day ∧ t.day ≤ daysInMonth t.year t.month

instance (t : Ymd) : Decidable (ValidYmd t) := by
  unfold ValidYmd
  infer_instance

/-- `normDayGo` preserves the linear day count and yields a valid date
whenever the fuel dominates the measure. -/
theorem normDayGo_spec (n : Nat) : ∀ (y : Int) (m : Nat) (d : Int),
    normMeasure d ≤ n → 1 ≤ m → m ≤ 12 →
    toDays (normDayGo n y m d) = toDaysExt y m d ∧ ValidYmd (normDayGo n y m d) := by
  induction n with
  | zero =>
    intro y m d hn _ _
    exfalso
    unfold normMeasure at hn
    split_ifs at hn <;> omega
  | succ n ih =>
    intro y m d hn h1 h2
    unfold normMeasure at hn
    simp only [normDayGo]
    split_ifs with hd1 hm1 hd2 hm12
    · -- borrow, from January into December of the previous year
      subst hm1
      have g1 := daysInMonth_ge (y - 1) 12
      have l1 := daysInMonth_le (y - 1) 12
      have hrec := ih (y - 1) 12 (d + (daysInMonth (y - 1) 12 : Int))
        (by unfold normMeasure; split_ifs at hn ⊢ <;> omega) (by norm_num) (by norm_num)
      refine ⟨?_, hrec.2⟩
      rw [hrec.1]
      have hy := daysBeforeYear_succ (y - 1)
      rw [show y - 1 + 1 = y from by omega] at hy
      have h13 := daysBeforeMonth_13 (y - 1)
      have hs := daysBeforeMonth_succ (y - 1) 12 (by norm_num)
      norm_num at hs
      have hb1 : daysBeforeMonth y 1 = 0 := rfl
      simp only [toDaysExt]
      omega
    · -- borrow, within the same year
      have g2 := daysInMonth_ge y (m - 1)
      have l2 := daysInMonth_le y (m - 1)
      have hrec := ih y (m - 1) (d + (daysInMonth y (m - 1) : Int))
        (by unfold normMeasure; split_ifs at hn ⊢ <;> omega) (by omega) (by omega)
      refine ⟨?_, hrec.2⟩
      rw [hrec.1]
      have hstep := daysBeforeMonth_succ y (m - 1) (by omega)
      rw [show m - 1 + 1 = m from by omega] at hstep
      simp only [toDaysExt]
      omega
    · -- carry, from December into January of the next year
      subst hm12
      have g := daysInMonth_ge y 12
      have l := daysInMonth_le y 12
      have hrec := ih (y + 1) 1 (d - (daysInMonth y 12 : Int))
        (by unfold normMeasure; split_ifs at hn ⊢ <;> omega) (by norm_num) (by norm_num)
      refine ⟨?_, hrec.2⟩
      rw [hrec.1]
      have hy := daysBeforeYear_succ y
      have h13 := daysBeforeMonth_13 y
      have hs := daysBeforeMonth_succ y 12 (by norm_num)
      norm_num at hs
      have hb1 : daysBeforeMonth (y + 1) 1 = 0 := rfl
      simp only [toDaysExt]
      omega
    · -- carry, within the same year
      have g := daysInMonth_ge y m
      have hrec := ih y (m + 1) (d - (daysInMonth y m : Int))
        (by unfold normMeasure; split_ifs at hn ⊢ <;> omega) (by omega) (by omega)
      refine ⟨?_, hrec.2⟩
      rw [hrec.1]
      have hstep := daysBeforeMonth_succ y m (by omega)
      simp only [toDaysExt]
      omega
    · -- already in range
      refine ⟨?_, ?_⟩
      · simp only [toDays, toDaysExt]
        omega
      · simp only [ValidYmd]
        omega

theorem normDay_days (y : Int) (m : Nat) (d : Int) (h1 : 1 ≤ m) (h2 : m ≤ 12) :
    toDays (normDay y m d) = toDaysExt y m d :=
  (normDayGo_spec _ y m d le_rfl h1 h2).1

theorem normDay_valid (y : Int) (m : Nat) (d : Int) (h1 : 1 ≤ m) (h2 : m ≤ 12) :
    ValidYmd (normDay y m d) :=
  (normDayGo_spec _ y m d le_rfl h1 h2).2

/-- Chronological order on calendar dates, as produced by comparing the
host `Date`'s `getTime()` values of two dates at midnight: for normalized
dates this is lexicographic on (year, month, day). -/
def YmdLt (a b : Ymd) : Prop :=
  a.year < b.year ∨ (a.year = b.year ∧
    (a.month < b.month ∨ (a.month = b.month ∧ a.day < b.day)))

/-- `expiry.getTime() <= limit.getTime()` on date-only values. -/
def YmdLe (a b : Ymd) : Prop :=
  YmdLt a b ∨ a = b

instance (a b : Ymd) : Decidable (YmdLt a b) := by
  unfold YmdLt
  infer_instance

instance (a b : Ymd) : Decidable (YmdLe a b) := by
  unfold YmdLe
  infer_instance

theorem daysBeforeMonth_nonneg (y : Int) (m : Nat) : 0 ≤ daysBeforeMonth y m := by
  induction m with
  | zero => norm_num [daysBeforeMonth]
  | succ m ih =>
    rcases Nat.eq_zero_or_pos m with h | h
    · subst h
      norm_num [daysBeforeMonth]
    · rw [daysBeforeMonth_succ y m h]
      have := daysInMonth_ge y m
      omega

theorem daysBeforeMonth_mono (y : Int) {m m' : Nat} (h1 : 1 ≤ m) (h : m < m') :
    daysBeforeMonth y m + daysInMonth y m ≤ daysBeforeMonth y m' := by
  induction m' with
  | zero => omega
  | succ m' ih =>
    rcases Nat.lt_or_ge m m' with hlt | hge
    · have hs := daysBeforeMonth_succ y m' (by omega)
      have := daysInMonth_ge y m'
      have := ih hlt
      omega
    · have hm : m = m' := by omega
      subst hm
      rw [daysBeforeMonth_succ y m h1]

theorem daysBeforeYear_mono {y y' : Int} (h : y ≤ y') :
    daysBeforeYear y ≤ daysBeforeYear y' := by
  unfold daysBeforeYear
  omega

theorem toDays_lt_of_lt (a b : Ymd) (ha : ValidYmd a) (hb : ValidYmd b)
    (h : YmdLt a b) : toDays a < toDays b := by
  obtain ⟨ha1, ha2, ha3, ha4⟩ := ha
  obtain ⟨hb1, hb2, hb3, hb4⟩ := hb
  simp only [toDays, toDaysExt]
  rcases h with hy | ⟨hy, hm | ⟨hm, hd⟩⟩
  · -- strictly earlier year
    have hA := daysBeforeMonth_mono a.year ha1 (show a.month < 13 by omega)
    have h13 := daysBeforeMonth_13 a.year
    have hsy := daysBeforeYear_succ a.year
    have hmono := daysBeforeYear_mono (show a.year + 1 ≤ b.year by omega)
    have hnn := daysBeforeMonth_nonneg b.year b.month
    omega
  · -- same year, strictly earlier month
    rw [hy]
    rw [hy] at ha4
    have hmono := daysBeforeMonth_mono b.year ha1 hm
    omega
  · -- same year and month
    rw [hy, hm]
    omega

theorem ymdLt_iff_toDays_lt (a b : Ymd) (ha : ValidYmd a) (hb : ValidYmd b) :
    (YmdLt a b ↔ toDays a < toDays b) := by
  constructor
  · exact toDays_lt_of_lt a b ha hb
  · intro h
    have htri : YmdLt a b ∨ (a.year = b.year ∧ a.month = b.month ∧ a.day = b.day) ∨ YmdLt b a := by
      unfold YmdLt
      omega
    rcases htri with h1 | h2 | h3
    · exact h1
    · exfalso
      have : a = b := by
        cases a
        cases b
        simp_all
      subst this
      omega
    · exfalso
      have := toDays_lt_of_lt b a hb ha h3
      omega

/-- The decimal digit character for `n < 10`. -/
def digitChar (n : Nat) : Char :=
  Char.ofNat (48 + n)

/-- Decimal digit value of a character, `none` for a non-digit. -/
def digitVal (c : Char) : Option Nat :=
  if 48 ≤ c.toNat ∧ c.toNat ≤ 57 then some (c.toNat - 48) else none

theorem digitVal_digitChar (n : Nat) (h : n < 10) :
    digitVal (digitChar n) = some n := by
  interval_cases n <;> rfl

/-- `String(n).padStart(2, '0')`: for `n < 100` exactly the two decimal
digits; larger values are left as their plain decimal representation. -/
def pad2 (n : Nat) : String :=
  if n < 100 then String.mk [digitChar (n / 10), digitChar (n % 10)] else toString n

/-- `${year}` template interpolation of a year; for four-digit years these
are the four decimal digits. -/
def yearStr (y : Int) : String :=
  if 1000 ≤ y ∧ y ≤ 9999 then
    String.mk [digitChar (y.toNat / 1000), digitChar (y.toNat / 100 % 10),
      digitChar (y.toNat / 10 % 10), digitChar (y.toNat % 10)]
  else toString y

/-- ISO "YYYY-MM-DD" formatting: the `${year}-${mm}-${dd}` templates of
`toIsoDate`, `buildMonthRows` and `addDaysIso`, with month and day padded
by `pad2`. -/
def isoDateString (t : Ymd) : String :=
  yearStr t.year ++ "-" ++ pad2 t.month ++ "-" ++ pad2 t.day

/-- Host `Date` parsing of an ISO "YYYY-MM-DD" string (the source always
parses via `new Date(dateIso + "T00:00:00[Z]")`): exactly a four-digit year,
two-digit month 01..12 and two-digit in-month day; anything else is an
invalid date (`none`). -/
def parseIso10 (s : String) : Option Ymd :=
  match s.data with
  | [y1, y2, y3, y4, s1, m1, m2, s2, d1, d2] =>
    if s1 = '-' ∧ s2 = '-' then
      match digitVal y1, digitVal y2, digitVal y3, digitVal y4,
            digitVal m1, digitVal m2, digitVal d1, digitVal d2 with
      | some a, some b, some c, some e, some f, some g, some k, some i =>
        if 1 ≤ 10 * f + g ∧ 10 * f + g ≤ 12 ∧ 1 ≤ 10 * k + i ∧
            10 * k + i ≤ daysInMonth ((1000 * a + 100 * b + 10 * c + e : Nat) : Int) (10 * f + g) then
          some ⟨((1000 * a + 100 * b + 10 * c + e : Nat) : Int), 10 * f + g, 10 * k + i⟩
        else none
      | _, _, _, _, _, _, _, _ => none
    else none
  | _ => none

theorem parseIso10_isoDateString (t : Ymd) (hy1 : 1000 ≤ t.year)
    (hy2 : t.year ≤ 9999) (hv : ValidYmd t) :
    parseIso10 (isoDateString t) = some t := by
  obtain ⟨hm1, hm2, hd1, hd2⟩ := hv
  have hdle := daysInMonth_le t.year t.month
  have hdata : (isoDateString t).data =
      [digitChar (t.year.toNat / 1000), digitChar (t.year.toNat / 100 % 10),
       digitChar (t.year.toNat / 10 % 10), digitChar (t.year.toNat % 10), '-',
       digitChar (t.month / 10), digitChar (t.month % 10), '-',
       digitChar (t.day / 10), digitChar (t.day % 10)] := by
    rw [isoDateString, yearStr, pad2, pad2, if_pos ⟨hy1, hy2⟩, if_pos (by omega),
      if_pos (by omega)]
    simp [String.data_append]
  rw [parseIso10, hdata]
  simp only
  rw [if_pos (show (True ∧ True) from ⟨trivial, trivial⟩)]
  rw [digitVal_digitChar _ (by omega), digitVal_digitChar _ (by omega),
    digitVal_digitChar _ (by omega), digitVal_digitChar _ (by omega),
    digitVal_digitChar _ (by omega), digitVal_digitChar _ (by omega),
    digitVal_digitChar _ (by omega), digitVal_digitChar _ (by omega)]
  simp only
  have hyre : (1000 * (t.year.toNat / 1000) + 100 * (t.year.toNat / 100 % 10) +
      10 * (t.year.toNat / 10 % 10) + t.year.toNat % 10 : Nat) = t.year.toNat := by
    omega
  have hmre : (10 * (t.month / 10) + t.month % 10 : Nat) = t.month := by omega
  have hdre : (10 * (t.day / 10) + t.day % 10 : Nat) = t.day := by omega
  rw [hyre, hmre, hdre]
  rw [show ((t.year.toNat : Int)) = t.year from by omega]
  rw [if_pos ⟨hm1, hm2, hd1, hd2⟩]

/-- `addDaysIso(dateIso, days)`: `new Date(dateIso + "T00:00:00Z")`, then
`setUTCDate(getUTCDate() + days)`, then re-format the UTC fields as
"YYYY-MM-DD".  An unparsable input yields the host's NaN formatting. -/
def addDaysIso (dateIso : String) (days : Int) : String :=
  match parseIso10 dateIso with
  | some t => isoDateString (addDaysYmd t days)
  | none => "NaN-NaN-NaN"

/-- `startOfMonth(year, month1to12)`: the literal `${year}-${mm}-01`. -/
def startOfMonth (year : Int) (month1to12 : Nat) : String :=
  yearStr year ++ "-" ++ pad2 month1to12 ++ "-" ++ pad2 1

/-- `endOfMonth(year, month1to12)`: `toIsoDate(new Date(year, month1to12, 0))`,
i.e. the host-normalized date "day 0 of the following month". -/
def endOfMonth (year : Int) (month1to12 : Nat) : String :=
  isoDateString (normDay year (month1to12 + 1) 0)

theorem endOfMonth_normalized (year : Int) (month1to12 : Nat)
    (h1 : 1 ≤ month1to12) (h2 : month1to12 ≤ 12) :
    normDay year (month1to12 + 1) 0 = ⟨year, month1to12, daysInMonth year month1to12⟩ := by
  have hg := daysInMonth_ge year month1to12
  show normDayGo (normMeasure 0) year (month1to12 + 1) 0 = _
  rw [show normMeasure 0 = 63 + 1 from rfl]
  rw [normDayGo_succ]
  rw [if_pos (by norm_num : (0 : Int) < 1)]
  simp only [if_neg (show ¬(month1to12 + 1 = 1) from by omega), Nat.add_sub_cancel,
    zero_add]
  rw [normDayGo_in_range _ _ _ _ (by omega) (by omega), Int.toNat_natCast]

/-- `module.toUpperCase()` on the ASCII module names: character-wise
upper-casing. -/
def toUpperStr (s : String) : String :=
  String.mk (s.data.map Char.toUpper)

/-- `String.prototype.trim`: strip whitespace from both ends. -/
def trimStr (s : String) : String :=
  String.mk (((s.data.dropWhile Char.isWhitespace).reverse.dropWhile
    Char.isWhitespace).reverse)

/-- JS string relational comparison (`<=` on strings): code-unit
lexicographic order, used by the year-mode expense date filter. -/
def charListLe : List Char → List Char → Bool
  | [], _ => true
  | _ :: _, [] => false
  | a :: as, b :: bs =>
    if a.toNat < b.toNat then true
    else if a.toNat = b.toNat then charListLe as bs
    else false

/-- `a <= b` on JS strings. -/
def strLe (a b : String) : Bool :=
  charListLe a.data b.data

/-- A `myPermissions` record:
`{ module, canView, canCreate, canEdit, canDelete }`. -/
structure UserPermission where
  module : String
  canView : Bool
  canCreate : Bool
  canEdit : Bool
  canDelete : Bool
deriving DecidableEq, Repr

/-- The `me` query result (`roles` is the only field the permission logic
consults). -/
structure MeUser where
  id : String
  name : String
  email : String
  roles : List String
deriving DecidableEq, Repr

/-- The externally sourced state of `PermissionService`: the `me` signal
(`null` until loaded or on failure) and the `myPermissions` signal
(`[]` until loaded or on failure). -/
structure PermissionState where
  me : Option MeUser
  myPermissions : List UserPermission
deriving DecidableEq, Repr

/-- `PermissionService.isAdmin`: `(this.me()?.roles ?? []).includes('ADMIN')`. -/
def isAdmin (s : PermissionState) : Bool :=
  ((s.me.map MeUser.roles).getD []).contains "ADMIN"

/-- `PermissionService.perm`:
`this.myPermissions().find((x) => x.module === module.toUpperCase())`.
Note that only the queried module is upper-cased; the stored module is
compared verbatim. -/
def perm (s : PermissionState) (module : String) : Option UserPermission :=
  s.myPermissions.find? (fun x => x.module == toUpperStr module)

/-- `PermissionService.canView`: `Boolean(this.perm(module)?.canView)` after
the admin short-circuit. -/
def canView (s : PermissionState) (module : String) : Bool :=
  if isAdmin s then true
  else ((perm s module).map UserPermission.canView).getD false

/-- `PermissionService.canCreate`. -/
def canCreate (s : PermissionState) (module : String) : Bool :=
  if isAdmin s then true
  else ((perm s module).map UserPermission.canCreate).getD false

/-- `PermissionService.canEdit`. -/
def canEdit (s : PermissionState) (module : String) : Bool :=
  if isAdmin s then true
  else ((perm s module).map UserPermission.canEdit).getD false

/-- `PermissionService.canDelete`. -/
def canDelete (s : PermissionState) (module : String) : Bool :=
  if isAdmin s then true
  else ((perm s module).map UserPermission.canDelete).getD false

/-- `DashboardPage.canView`: unlike `PermissionService.perm`, this local
variant upper-cases BOTH the stored module and the queried module before
comparing. -/
def dashboardCanView (s : PermissionState) (module : String) : Bool :=
  if isAdmin s then true
  else ((s.myPermissions.find?
    (fun x => toUpperStr x.module == toUpperStr module)).map
      UserPermission.canView).getD false

/-- An inventory row as consulted by the status classifier (`batchId` and
`location` are carried but not consulted by `statusLabel`). -/
structure InventoryItem where
  batchId : String
  location : String
  expiryDate : String
  qtyOnHand : Int
deriving DecidableEq, Repr

/-- The epoch fallback date `startOfDay(new Date(0))`, i.e. 1970-01-01. -/
def epochYmd : Ymd := ⟨1970, 1, 1⟩

/-- `InventoryPage.parseDateOnly`: trim; an empty or unparsable value falls
back to the epoch date; otherwise the parsed calendar date (the source's
`startOfDay` truncation is implicit in the date-only representation). -/
def parseDateOnly (value : String) : Ymd :=
  if trimStr value = "" then epochYmd
  else
    match parseIso10 (trimStr value) with
    | some t => t
    | none => epochYmd

/-- `InventoryPage.statusLabel`: out-of-stock check first, then expired
(calendar date strictly before today), then near-expiry (on or before
today plus three host-calendar months), else sell-allowed. -/
def statusLabel (today : Ymd) (i : InventoryItem) : String :=
  if i.qtyOnHand ≤ 0 then "Out of stock"
  else if YmdLt (parseDateOnly i.expiryDate) today then "Expired"
  else if YmdLe (parseDateOnly i.expiryDate) (addMonths today 3) then "Near expiry"
  else "Sell allowed"

/-- An expense record as consulted by the profit aggregation (`id` is
carried for identity; fields that the aggregation never reads are omitted).
`date` and `amount` are optional because the source defends with
`e.date ?? ''` and `e.amount ?? 0`. -/
structure Expense where
  id : String
  date : Option String
  amount : Option Int
deriving DecidableEq, Repr

/-- The `dailySalesReport` payload fields consulted by the profit
aggregation; the amounts are optional because the source defends with
`?.totalProfitAmount ?? 0`. -/
structure DailySalesReport where
  date : String
  totalSalesAmount : Option Int
  totalProfitAmount : Option Int
deriving DecidableEq, Repr

/-- `(...).reduce((s, e) => s + Number(e.amount ?? 0), 0)`. -/
def sumAmounts (l : List Expense) : Int :=
  l.foldl (fun s e => s + e.amount.getD 0) 0

/-- `expList.filter((e) => String(e.date ?? '') === d).reduce(...)`: total
expense amount dated exactly `d`. -/
def expensesOn (expenses : List Expense) (d : String) : Int :=
  sumAmounts (expenses.filter (fun e => e.date.getD "" == d))

/-- `Number(r?.dailySalesReport?.totalProfitAmount ?? 0)` for the response
to the `DailySales` query at `d`.  The fetch layer is a function from the
date to the (possibly null) report; `forkJoin` preserves request order, so
`daily[idx]` in the source is the response for the date at index `idx`. -/
def grossFor (fetch : String → Option DailySalesReport) (d : String) : Int :=
  ((fetch d).bind DailySalesReport.totalProfitAmount).getD 0

/-- A derived profit row.  The source fields `from`/`to` are named
`fromDate`/`toDate` here (`from` is reserved in Lean). -/
structure ProfitRow where
  label : String
  fromDate : String
  toDate : String
  grossProfit : Int
  expenses : Int
  netProfit : Int
deriving DecidableEq, Repr

/-- `ProfitManagementPage.load`, DAY branch: one row for the (trimmed)
selected date, or no rows when the date is blank.  In this branch the
source sums the entire expense response (the server already filtered it to
`from = to = date`). -/
def loadDayRows (rawDate : String)
    (fetch : String → Option DailySalesReport)
    (expenses : List Expense) : List ProfitRow :=
  let date := trimStr rawDate
  if date = "" then []
  else
    let gross := grossFor fetch date
    let expTotal := sumAmounts expenses
    [⟨date, date, date, gross, expTotal, gross - expTotal⟩]

/-- `ProfitManagementPage.buildMonthRows`: one zero-amount row per calendar
day of the month, dated `${year}-${m}-${d}` with two-digit padding. -/
def buildMonthRows (year : Int) (month1to12 : Nat) : List ProfitRow :=
  let days := daysInMonth year month1to12
  let m := pad2 month1to12
  (List.range days).map (fun idx =>
    let day := idx + 1
    let d := pad2 day
    let date := yearStr year ++ "-" ++ m ++ "-" ++ d
    ⟨date, date, date, 0, 0, 0⟩)

/-- `ProfitManagementPage.load`, MONTH branch: guard invalid year/month,
then fill each `buildMonthRows` row with that day's gross profit and the
expenses dated exactly that day.  `daily[idx]` is the response for
`rows[idx].from`, i.e. `fetch r.fromDate`. -/
def loadMonthRows (year : Int) (month : Nat)
    (fetch : String → Option DailySalesReport)
    (expenses : List Expense) : List ProfitRow :=
  if year = 0 ∨ month < 1 ∨ 12 < month then []
  else
    (buildMonthRows year month).map (fun r =>
      let gross := grossFor fetch r.fromDate
      let expTotal := expensesOn expenses r.fromDate
      { r with grossProfit := gross, expenses := expTotal,
               netProfit := gross - expTotal })

/-- The zero-amount YEAR row for month index `idx` (0-based):
label `${year}-${m}`, range `${year}-${m}-01` .. `${year}-${m}-(last day)`. -/
def yearRow (year : Int) (idx : Nat) : ProfitRow :=
  let month := idx + 1
  let m := pad2 month
  let f := yearStr year ++ "-" ++ m ++ "-" ++ pad2 1
  let t := yearStr year ++ "-" ++ m ++ "-" ++ pad2 (daysInMonth year month)
  ⟨yearStr year ++ "-" ++ m, f, t, 0, 0, 0⟩

/-- `ProfitManagementPage.buildYearRows`: twelve zero-amount month rows. -/
def buildYearRows (year : Int) : List ProfitRow :=
  (List.range 12).map (yearRow year)

/-- The per-day date strings of a month issued by the YEAR branch:
`${y}-${pad2 m}-${pad2 (idx+1)}`.  The source re-derives `(y, m)` from
`r.from` via `isoDateParts`; for the four-digit years formatted by
`buildYearRows` that recovers exactly `(year, month)`, which is passed
directly here. -/
def monthDates (year : Int) (month : Nat) : List String :=
  (List.range (daysInMonth year month)).map (fun idx =>
    yearStr year ++ "-" ++ pad2 month ++ "-" ++ pad2 (idx + 1))

/-- `ProfitManagementPage.load`, YEAR branch: guard a falsy year, then for
each month sum the per-day gross profits and the expenses whose date lies
in `[row.from, row.to]` under JS string comparison. -/
def loadYearRows (year : Int)
    (fetch : String → Option DailySalesReport)
    (expenses : List Expense) : List ProfitRow :=
  if year = 0 then []
  else
    (List.range 12).map (fun idx =>
      let r := yearRow year idx
      let month := idx + 1
      let gross := (monthDates year month).foldl
        (fun s dte => s + grossFor fetch dte) 0
      let expTotal := sumAmounts (expenses.filter (fun e =>
        strLe r.fromDate (e.date.getD "") && strLe (e.date.getD "") r.toDate))
      { r with grossProfit := gross, expenses := expTotal,
               netProfit := gross - expTotal })

/-- `DashboardPage.loadProfit` / `ProfitDashboardPage.load`: the seven label
dates `addDaysIso(date, i - 6)` for `i = 0..6`. -/
def last7Dates (anchor : String) : List String :=
  (List.range 7).map (fun (i : Nat) => addDaysIso anchor ((i : Int) - 6))

/-- The rolling seven-day net-profit series: for each label date, that
day's `totalProfitAmount ?? 0` minus the expenses dated exactly that day. -/
def profit7Days (anchor : String)
    (fetch : String → Option DailySalesReport)
    (expenses : List Expense) : List Int :=
  (last7Dates anchor).map (fun d => grossFor fetch d - expensesOn expenses d)

/-- A non-admin storekeeper user. -/
def skUser : MeUser := ⟨"u1", "Store", "s@x", ["STOREKEEPER"]⟩

/-- An admin session with zero permission records. -/
def adminState : PermissionState := ⟨some ⟨"u0", "Admin", "a@x", ["ADMIN"]⟩, []⟩

/-- The spec's storekeeper scenario: one all-uppercase SALES record with
only `canView`. -/
def skState : PermissionState :=
  ⟨some skUser, [⟨"SALES", true, false, false, false⟩]⟩

/-- A storekeeper whose stored record uses the mixed-case module "Sales". -/
def mixedState : PermissionState :=
  ⟨some skUser, [⟨"Sales", true, true, true, true⟩]⟩

/-- A storekeeper with two records for module "SALES" whose boolean fields
disagree. -/
def dupState : PermissionState :=
  ⟨some skUser, [⟨"SALES", true, false, false, false⟩,
                 ⟨"SALES", false, true, true, true⟩]⟩

/-- C4: for every user whose role set contains "ADMIN" and every module
string, all four capability queries return true, whatever the permission
list — including an empty one or one without a record for the module. -/
theorem c4_admin_bypass (u : MeUser) (perms : List UserPermission)
    (module : String) (hadmin : "ADMIN" ∈ u.roles) :
    canView ⟨some u, perms⟩ module = true ∧
    canCreate ⟨some u, perms⟩ module = true ∧
    canEdit ⟨some u, perms⟩ module = true ∧
    canDelete ⟨some u, perms⟩ module = true := by
  have hA : isAdmin ⟨some u, perms⟩ = true := by
    simp [isAdmin, List.elem_iff]
    exact hadmin
  refine ⟨?_, ?_, ?_, ?_⟩ <;> simp [canView, canCreate, canEdit, canDelete, hA]

theorem c4_admin_bypass_witness :
    canView adminState "ANYTHING" = true ∧
    canCreate adminState "ANYTHING" = true ∧
    canEdit adminState "ANYTHING" = true ∧
    canDelete adminState "ANYTHING" = true :=
  c4_admin_bypass ⟨"u0", "Admin", "a@x", ["ADMIN"]⟩ [] "ANYTHING" (by decide)

/-- C7: for a non-admin user and a module with no matching permission
record, all four capability queries return false.  The lookups are total
Lean functions built from `List.find?` and `Option.getD` — the "never
throws" half of the claim — and an absent record resolves to all-false. -/
theorem c7_fail_closed (s : PermissionState) (module : String)
    (hadmin : isAdmin s = false)
    (habsent : ∀ p ∈ s.myPermissions, p.module ≠ toUpperStr module) :
    canView s module = false ∧ canCreate s module = false ∧
    canEdit s module = false ∧ canDelete s module = false := by
  have hfind : perm s module = none := by
    unfold perm
    exact List.find?_eq_none.mpr (by intro x hx; simpa using habsent x hx)
  simp [canView, canCreate, canEdit, canDelete, hadmin, hfind]

theorem c7_fail_closed_witness :
    canView skState "PURCHASING" = false ∧
    canCreate skState "PURCHASING" = false ∧
    canEdit skState "PURCHASING" = false ∧
    canDelete skState "PURCHASING" = false :=
  c7_fail_closed skState "PURCHASING" (by decide) (by decide)

/-- C5 counterexample: the stored module "Sales" differs from the queried
"SALES" only by letter case and its `canView` field is true, yet the
resolver (which upper-cases only the query, not the stored module) does not
find it and returns false — contradicting the claim that both sides are
upper-cased before comparison. -/
theorem c5_mixed_case_counterexample :
    mixedState.myPermissions.map UserPermission.module = ["Sales"] ∧
    toUpperStr "Sales" = "SALES" ∧
    mixedState.myPermissions.map UserPermission.canView = [true] ∧
    canView mixedState "SALES" = false := by decide

/-- C5 (amended): the resolver upper-cases only the queried module and
compares stored modules verbatim.  Hence queries equal after upper-casing
are interchangeable, and a stored record whose module is exactly the
upper-cased query is found and its field returned (through the admin OR).
The spec's storekeeper scenario holds, and the dashboard-local `canView` —
which upper-cases both sides — does find a mixed-case stored record. -/
theorem c5_query_case_insensitive (s : PermissionState) (q1 q2 : String)
    (hq : toUpperStr q1 = toUpperStr q2) :
    (canView s q1 = canView s q2 ∧ canCreate s q1 = canCreate s q2 ∧
     canEdit s q1 = canEdit s q2 ∧ canDelete s q1 = canDelete s q2) ∧
    (∀ p, perm s q1 = some p →
      canView s q1 = (isAdmin s || p.canView) ∧
      canCreate s q1 = (isAdmin s || p.canCreate) ∧
      canEdit s q1 = (isAdmin s || p.canEdit) ∧
      canDelete s q1 = (isAdmin s || p.canDelete)) ∧
    canView skState "sales" = true ∧ canCreate skState "SALES" = false ∧
    canView skState "PURCHASING" = false ∧
    dashboardCanView mixedState "SALES" = true := by
  refine ⟨?_, ?_, by decide, by decide, by decide, by decide⟩
  · unfold canView canCreate canEdit canDelete perm
    rw [hq]
    exact ⟨rfl, rfl, rfl, rfl⟩
  · intro p hp
    unfold canView canCreate canEdit canDelete
    rw [hp]
    cases hA : isAdmin s <;> simp

theorem c5_query_case_insensitive_witness :
    (canView skState "sales" = canView skState "SALES" ∧
     canCreate skState "sales" = canCreate skState "SALES" ∧
     canEdit skState "sales" = canEdit skState "SALES" ∧
     canDelete skState "sales" = canDelete skState "SALES") ∧
    (∀ p, perm skState "sales" = some p →
      canView skState "sales" = (isAdmin skState || p.canView) ∧
      canCreate skState "sales" = (isAdmin skState || p.canCreate) ∧
      canEdit skState "sales" = (isAdmin skState || p.canEdit) ∧
      canDelete skState "sales" = (isAdmin skState || p.canDelete)) ∧
    canView skState "sales" = true ∧ canCreate skState "SALES" = false ∧
    canView skState "PURCHASING" = false ∧
    dashboardCanView mixedState "SALES" = true :=
  c5_query_case_insensitive skState "sales" "SALES" (by decide)

/-- C6 counterexample: with two records for module "SALES" whose fields
disagree, the resolver returns the first record's fields (`List.find?`),
not the last's — the claimed last-write-wins mapping view is refuted. -/
theorem c6_first_match_counterexample :
    dupState.myPermissions.map UserPermission.module = ["SALES", "SALES"] ∧
    isAdmin dupState = false ∧
    (dupState.myPermissions.getLast?).map UserPermission.canView = some false ∧
    canView dupState "SALES" = true := by decide

/-- C6 (amended): duplicate records resolve first-write-wins — for a
non-admin user, each capability query returns the boolean field of the
FIRST record in the list whose module equals the upper-cased query. -/
theorem c6_first_match_wins (s : PermissionState)
    (l1 l2 : List UserPermission) (p : UserPermission) (module : String)
    (hs : s.myPermissions = l1 ++ p :: l2)
    (hfirst : ∀ x ∈ l1, x.module ≠ toUpperStr module)
    (hp : p.module = toUpperStr module)
    (hadmin : isAdmin s = false) :
    canView s module = p.canView ∧ canCreate s module = p.canCreate ∧
    canEdit s module = p.canEdit ∧ canDelete s module = p.canDelete := by
  have hfind : perm s module = some p := by
    unfold perm
    rw [hs, List.find?_append]
    have h1 : l1.find? (fun x => x.module == toUpperStr module) = none :=
      List.find?_eq_none.mpr (by intro x hx; simpa using hfirst x hx)
    have h2 : (p :: l2).find? (fun x => x.module == toUpperStr module) = some p :=
      List.find?_cons_of_pos _ (by simpa using hp)
    rw [h1, h2]
    rfl
  simp [canView, canCreate, canEdit, canDelete, hadmin, hfind]

theorem c6_first_match_wins_witness :
    canView dupState "SALES" = true ∧ canCreate dupState "SALES" = false ∧
    canEdit dupState "SALES" = false ∧ canDelete dupState "SALES" = false := by
  have h := c6_first_match_wins dupState []
    [⟨"SALES", false, true, true, true⟩] ⟨"SALES", true, false, false, false⟩
    "SALES" (by decide) (by decide) (by decide) (by decide)
  exact h

/-- C8: the status classifier returns exactly one of the four labels, with
out-of-stock dominating, then expired (expiry date strictly before today,
date-only comparison), then near-expiry (expiry on or before today plus
three host-calendar months), else sell-allowed.  The final conjunct
exhibits a date beyond a fixed 90-day window that is still near-expiry,
showing the horizon is native calendar-month addition, not 90 days. -/
theorem c8_status_classifier (today : Ymd) (i : InventoryItem) (e : Ymd)
    (hparse : parseDateOnly i.expiryDate = e) :
    (statusLabel today i = "Out of stock" ∨ statusLabel today i = "Expired" ∨
     statusLabel today i = "Near expiry" ∨ statusLabel today i = "Sell allowed") ∧
    (i.qtyOnHand ≤ 0 → statusLabel today i = "Out of stock") ∧
    (0 < i.qtyOnHand → YmdLt e today → statusLabel today i = "Expired") ∧
    (0 < i.qtyOnHand → ¬ YmdLt e today → YmdLe e (addMonths today 3) →
      statusLabel today i = "Near expiry") ∧
    (0 < i.qtyOnHand → ¬ YmdLt e today → ¬ YmdLe e (addMonths today 3) →
      statusLabel today i = "Sell allowed") ∧
    (statusLabel ⟨2024, 11, 30⟩ ⟨"b1", "MAIN", "2025-03-01", 5⟩ = "Near expiry" ∧
     YmdLt (addDaysYmd ⟨2024, 11, 30⟩ 90) (parseDateOnly "2025-03-01")) := by
  subst hparse
  unfold statusLabel
  refine ⟨by split_ifs <;> simp, fun h => by rw [if_pos h],
    fun h1 h2 => by rw [if_neg (by omega), if_pos h2],
    fun h1 h2 h3 => by rw [if_neg (by omega), if_neg h2, if_pos h3],
    fun h1 h2 h3 => by rw [if_neg (by omega), if_neg h2, if_neg h3],
    by decide, by decide⟩

theorem c8_status_classifier_witness :
    statusLabel ⟨2025, 10, 11⟩ ⟨"b", "L", "2024-01-01", 5⟩ = "Expired" :=
  (c8_status_classifier ⟨2025, 10, 11⟩ ⟨"b", "L", "2024-01-01", 5⟩
    ⟨2024, 1, 1⟩ (by decide)).2.2.1 (by decide) (by decide)

/-- C9: for positive stock and an empty or unparsable expiry string, the
parse falls back to the epoch date 1970-01-01, so (for any today after the
epoch) the classifier returns "Expired"; the functions are total, so no
input throws. -/
theorem c9_unparsable_expiry_expired (today : Ymd) (i : InventoryItem)
    (hq : 0 < i.qtyOnHand)
    (hbad : trimStr i.expiryDate = "" ∨ parseIso10 (trimStr i.expiryDate) = none)
    (htoday : YmdLt epochYmd today) :
    parseDateOnly i.expiryDate = epochYmd ∧ statusLabel today i = "Expired" := by
  have hp : parseDateOnly i.expiryDate = epochYmd := by
    unfold parseDateOnly
    rcases hbad with h | h
    · rw [if_pos h]
    · split_ifs with h0
      · rfl
      · rw [h]
  refine ⟨hp, ?_⟩
  unfold statusLabel
  rw [if_neg (by omega), if_pos (by rw [hp]; exact htoday)]

theorem c9_unparsable_expiry_expired_witness :
    parseDateOnly "not-a-date" = epochYmd ∧
    statusLabel ⟨2025, 10, 11⟩ ⟨"b", "L", "not-a-date", 3⟩ = "Expired" :=
  c9_unparsable_expiry_expired ⟨2025, 10, 11⟩ ⟨"b", "L", "not-a-date", 3⟩
    (by decide) (by decide) (by decide)

/-- C10: adding zero days to a well-formed ISO date string (a valid date
with a four-digit year) returns the same string, and day addition crosses
month and leap-year boundaries with the calendar. -/
theorem c10_addDaysIso_roundtrip (t : Ymd)
    (h1 : 1000 ≤ t.year) (h2 : t.year ≤ 9999) (hv : ValidYmd t) :
    addDaysIso (isoDateString t) 0 = isoDateString t ∧
    addDaysIso "2024-02-28" 1 = "2024-02-29" ∧
    addDaysIso "2023-02-28" 1 = "2023-03-01" := by
  refine ⟨?_, by decide, by decide⟩
  unfold addDaysIso
  rw [parseIso10_isoDateString t h1 h2 hv]
  obtain ⟨hm1, hm2, hd1, hd2⟩ := hv
  show isoDateString (normDay t.year t.month ((t.day : Int) + 0)) = isoDateString t
  rw [show ((t.day : Int) + 0) = (t.day : Int) from by omega]
  rw [normDay_in_range _ _ _ (by omega) (by omega), Int.toNat_natCast]

theorem c10_addDaysIso_roundtrip_witness :
    addDaysIso (isoDateString ⟨2024, 12, 31⟩) 0 = isoDateString ⟨2024, 12, 31⟩ ∧
    addDaysIso "2024-02-28" 1 = "2024-02-29" ∧
    addDaysIso "2023-02-28" 1 = "2023-03-01" :=
  c10_addDaysIso_roundtrip ⟨2024, 12, 31⟩ (by decide) (by decide) (by decide)

/-- The C3 scenario's daily reports: totalProfitAmount 10, 20, 15, 0, 5,
30, 12 over 2024-05-01..07, no report for other dates. -/
def scenFetch : String → Option DailySalesReport := fun d =>
  if d = "2024-05-01" then some ⟨d, none, some 10⟩
  else if d = "2024-05-02" then some ⟨d, none, some 20⟩
  else if d = "2024-05-03" then some ⟨d, none, some 15⟩
  else if d = "2024-05-04" then some ⟨d, none, some 0⟩
  else if d = "2024-05-05" then some ⟨d, none, some 5⟩
  else if d = "2024-05-06" then some ⟨d, none, some 30⟩
  else if d = "2024-05-07" then some ⟨d, none, some 12⟩
  else none

/-- The C3 scenario's expenses: 5 + 3 = 8 on 2024-05-03. -/
def scenExp : List Expense :=
  [⟨"e1", some "2024-05-03", some 5⟩, ⟨"e2", some "2024-05-03", some 3⟩]

/-- C1: every row produced by the profit aggregator — in DAY, MONTH or YEAR
mode — carries `netProfit = grossProfit - expenses`; the field is computed
from the other two at row construction and never stored independently. -/
theorem c1_netProfit_invariant
    (rawDate : String) (year : Int) (month : Nat)
    (fetch : String → Option DailySalesReport) (expenses : List Expense)
    (r : ProfitRow)
    (h : r ∈ loadDayRows rawDate fetch expenses ∨
         r ∈ loadMonthRows year month fetch expenses ∨
         r ∈ loadYearRows year fetch expenses) :
    r.netProfit = r.grossProfit - r.expenses := by
  rcases h with h | h | h
  · simp only [loadDayRows] at h
    split_ifs at h
    · simp at h
    · simp only [List.mem_singleton] at h
      subst h
      rfl
  · simp only [loadMonthRows] at h
    split_ifs at h
    · simp at h
    · obtain ⟨r0, hr0, hr⟩ := List.mem_map.mp h
      subst hr
      rfl
  · simp only [loadYearRows] at h
    split_ifs at h
    · simp at h
    · obtain ⟨i, hi, hr⟩ := List.mem_map.mp h
      subst hr
      rfl

theorem c1_netProfit_invariant_witness :
    (⟨"2024-05-03", "2024-05-03", "2024-05-03", 15, 8, 7⟩ : ProfitRow).netProfit =
      (⟨"2024-05-03", "2024-05-03", "2024-05-03", 15, 8, 7⟩ : ProfitRow).grossProfit -
        (⟨"2024-05-03", "2024-05-03", "2024-05-03", 15, 8, 7⟩ : ProfitRow).expenses :=
  c1_netProfit_invariant "2024-05-03" 2024 5 scenFetch scenExp
    ⟨"2024-05-03", "2024-05-03", "2024-05-03", 15, 8, 7⟩ (Or.inl (by decide))

/-- C2: in MONTH mode with a valid year and month, the aggregator produces
exactly `daysInMonth year month` rows, the row at index `i` is dated day
`i + 1` (ascending day numbers), and the last row's date is
`endOfMonth year month` — for every month length, leap Februaries
included. -/
theorem c2_month_rows (year : Int) (month : Nat)
    (fetch : String → Option DailySalesReport) (expenses : List Expense)
    (hy : year ≠ 0) (h1 : 1 ≤ month) (h2 : month ≤ 12) :
    (loadMonthRows year month fetch expenses).length = daysInMonth year month ∧
    (∀ i, i < daysInMonth year month →
      ((loadMonthRows year month fetch expenses)[i]?).map ProfitRow.fromDate =
        some (yearStr year ++ "-" ++ pad2 month ++ "-" ++ pad2 (i + 1))) ∧
    ((loadMonthRows year month fetch expenses).map ProfitRow.toDate).getLast? =
      some (endOfMonth year month) := by
  have hguard : ¬(year = 0 ∨ month < 1 ∨ 12 < month) := by omega
  have hdg := daysInMonth_ge year month
  refine ⟨?_, ?_, ?_⟩
  · unfold loadMonthRows
    rw [if_neg hguard]
    simp [buildMonthRows]
  · intro i hi
    unfold loadMonthRows
    rw [if_neg hguard]
    simp only [buildMonthRows, List.getElem?_map]
    rw [List.getElem?_range hi]
    rfl
  · unfold loadMonthRows
    rw [if_neg hguard]
    unfold buildMonthRows
    have hpos : 0 < daysInMonth year month := by omega
    rw [List.getLast?_map, List.getLast?_map, List.getLast?_map]
    rw [show (List.range (daysInMonth year month)).getLast? =
        some (daysInMonth year month - 1) from by
      rw [List.getLast?_eq_getElem?]
      simp [List.length_range, hpos]]
    unfold endOfMonth
    rw [endOfMonth_normalized year month h1 h2]
    simp only [Option.map_some']
    unfold isoDateString
    rw [show daysInMonth year month - 1 + 1 = daysInMonth year month from by omega]

theorem c2_month_rows_witness :
    (loadMonthRows 2024 2 scenFetch scenExp).length = daysInMonth 2024 2 ∧
    (∀ i, i < daysInMonth 2024 2 →
      ((loadMonthRows 2024 2 scenFetch scenExp)[i]?).map ProfitRow.fromDate =
        some (yearStr 2024 ++ "-" ++ pad2 2 ++ "-" ++ pad2 (i + 1))) ∧
    ((loadMonthRows 2024 2 scenFetch scenExp).map ProfitRow.toDate).getLast? =
      some (endOfMonth 2024 2) :=
  c2_month_rows 2024 2 scenFetch scenExp (by decide) (by decide) (by decide)

/-- A successful ISO parse yields a valid calendar date (the parser checks
the month range and the in-month day range). -/
theorem parseIso10_valid (s : String) (t : Ymd) (h : parseIso10 s = some t) :
    ValidYmd t := by
  unfold parseIso10 at h
  split at h
  · split_ifs at h
    split at h
    · split_ifs at h with hcond
      injection h with h2
      subst h2
      exact ⟨hcond.1, hcond.2.1, hcond.2.2.1, hcond.2.2.2⟩
    · simp at h
  · simp at h

/-- C3: for an anchor date that parses as calendar date `t`, the rolling
seven-day series has exactly seven entries; the label at index `j` is
`addDaysIso anchor (j - 6)` (so the dates run from anchor-6 through the
anchor) and the value at index `j` is that day's `totalProfitAmount ?? 0`
minus the expenses dated that day; consecutive underlying dates are
strictly ascending; and on the spec's concrete scenario the series is
`[10, 20, 7, 0, 5, 30, 12]`. -/
theorem c3_rolling7_series (anchor : String)
    (fetch : String → Option DailySalesReport) (expenses : List Expense)
    (t : Ymd) (ht : parseIso10 anchor = some t) :
    (profit7Days anchor fetch expenses).length = 7 ∧
    (∀ j : Nat, j < 7 →
      (last7Dates anchor)[j]? = some (addDaysIso anchor ((j : Int) - 6)) ∧
      (profit7Days anchor fetch expenses)[j]? =
        some (grossFor fetch (addDaysIso anchor ((j : Int) - 6)) -
          expensesOn expenses (addDaysIso anchor ((j : Int) - 6)))) ∧
    (∀ δ : Int, addDaysIso anchor δ = isoDateString (addDaysYmd t δ)) ∧
    (∀ j : Nat, j < 6 → YmdLt (addDaysYmd t ((j : Int) - 6))
      (addDaysYmd t (((j : Int) + 1) - 6))) ∧
    profit7Days "2024-05-07" scenFetch scenExp = [10, 20, 7, 0, 5, 30, 12] ∧
    last7Dates "2024-05-07" = ["2024-05-01", "2024-05-02", "2024-05-03",
      "2024-05-04", "2024-05-05", "2024-05-06", "2024-05-07"] := by
  obtain ⟨hm1, hm2, hd1, hd2⟩ := parseIso10_valid anchor t ht
  refine ⟨?_, ?_, ?_, ?_, by decide, by decide⟩
  · simp only [profit7Days, last7Dates, List.length_map, List.length_range]
  · intro j hj
    constructor
    · unfold last7Dates
      simp only [List.getElem?_map]
      rw [List.getElem?_range hj]
      rfl
    · unfold profit7Days last7Dates
      simp only [List.getElem?_map]
      rw [List.getElem?_range hj]
      rfl
  · intro δ
    unfold addDaysIso
    rw [ht]
  · intro j hj
    have hv1 := normDay_valid t.year t.month ((t.day : Int) + ((j : Int) - 6)) hm1 hm2
    have hv2 := normDay_valid t.year t.month ((t.day : Int) + (((j : Int) + 1) - 6)) hm1 hm2
    have hda := normDay_days t.year t.month ((t.day : Int) + ((j : Int) - 6)) hm1 hm2
    have hdb := normDay_days t.year t.month ((t.day : Int) + (((j : Int) + 1) - 6)) hm1 hm2
    unfold addDaysYmd
    refine (ymdLt_iff_toDays_lt _ _ hv1 hv2).mpr ?_
    rw [hda, hdb]
    unfold toDaysExt
    omega

theorem c3_rolling7_series_witness :
    (profit7Days "2024-05-07" scenFetch scenExp).length = 7 ∧
    (∀ j : Nat, j < 7 →
      (last7Dates "2024-05-07")[j]? = some (addDaysIso "2024-05-07" ((j : Int) - 6)) ∧
      (profit7Days "2024-05-07" scenFetch scenExp)[j]? =
        some (grossFor scenFetch (addDaysIso "2024-05-07" ((j : Int) - 6)) -
          expensesOn scenExp (addDaysIso "2024-05-07" ((j : Int) - 6)))) ∧
    (∀ δ : Int, addDaysIso "2024-05-07" δ = isoDateString (addDaysYmd ⟨2024, 5, 7⟩ δ)) ∧
    (∀ j : Nat, j < 6 → YmdLt (addDaysYmd ⟨2024, 5, 7⟩ ((j : Int) - 6))
      (addDaysYmd ⟨2024, 5, 7⟩ (((j : Int) + 1) - 6))) ∧
    profit7Days "2024-05-07" scenFetch scenExp = [10, 20, 7, 0, 5, 30, 12] ∧
    last7Dates "2024-05-07" = ["2024-05-01", "2024-05-02", "2024-05-03",
      "2024-05-04", "2024-05-05", "2024-05-06", "2024-05-07"] :=
  c3_rolling7_series "2024-05-07" scenFetch scenExp ⟨2024, 5, 7⟩ (by decide)
